import Mathlib

/-!
Verification development for `lib/model.py` of QuickFF.

The file shallowly embeds the numeric core of `model.py`:
`HarmonicModel` (quadratic Taylor expansion with ridge-truncated
pseudo-inverse Hessian), `CoulombModel` (pairwise 1/r energy with
exclusions) and the standalone `electrostatics` assembler.

Modelling conventions:
* machine floats are modelled by exact rationals `ℚ`;
* a rank-4 `[N,3,N,3]` numpy tensor is represented by its flattened
  `(3N)×(3N)` matrix view (the reshape between the two views is a
  bijective re-indexing, and every claim under study speaks about the
  flattened view);
* the external collaborators named in the spec — the distance primitive
  (`ic.IC` with `bond_length`) and the symmetric eigen-decomposition
  routine (`np.linalg.eigh`) — are taken as parameters (structure
  fields), exactly as §6 of the spec treats them;
* mutating loops (`ievals[i] = ...`, `D[i,i] = 0.0`, `energy += ...`,
  `forces += ...`) are embedded as folds over the ranges the Python
  loops traverse.
-/

namespace QuickFF

/-- Coordinate array of `N` atoms, each a 3-vector (numpy shape `(N,3)`). -/
abbrev Coords (N : ℕ) := Fin N → Fin 3 → ℚ

/-- Row-major flattening of an `(N,3)` array to length `3N`
(numpy `reshape([3*Natoms])`). -/
def flat3 {N : ℕ} (c : Coords N) : Fin (3 * N) → ℚ :=
  fun k =>
    c ⟨k.val / 3, Nat.div_lt_of_lt_mul k.isLt⟩ ⟨k.val % 3, Nat.mod_lt _ (by norm_num)⟩

/-- Row-major reshaping of a length-`3N` vector back to `(N,3)`
(numpy `reshape([Natoms, 3])`). -/
def unflat3 {N : ℕ} (v : Fin (3 * N) → ℚ) : Coords N :=
  fun a d => v ⟨3 * a.val + d.val, by have ha := a.isLt; have hd := d.isLt; omega⟩

/-- State of `HarmonicModel.__init__`: reference geometry, gradient,
Hessian (flattened view), reference energy and ridge threshold.  The
field `eigh` is the external symmetric eigen-decomposition routine
(`np.linalg.eigh`), returning an eigenvalue vector paired with an
eigenvector matrix; it is part of the model state so that the
construction-time diagonalization and `get_constrained_ihess` call the
same routine, as the source does. -/
structure HarmonicModel (N : ℕ) where
  coords0 : Coords N
  gradient : Coords N
  hess : Matrix (Fin (3 * N)) (Fin (3 * N)) ℚ
  reference : ℚ
  ridge : ℚ
  eigh : Matrix (Fin (3 * N)) (Fin (3 * N)) ℚ →
    (Fin (3 * N) → ℚ) × Matrix (Fin (3 * N)) (Fin (3 * N)) ℚ

/-- Embedding of `HarmonicModel.get_energy`:
`reference + g·dx + 0.5 * dx·(H dx)` with `dx = (coords - coords0).reshape([3*Natoms])`. -/
def HarmonicModel.get_energy {N : ℕ} (m : HarmonicModel N) (coords : Coords N) : ℚ :=
  m.reference
    + Matrix.dotProduct (flat3 m.gradient)
        (flat3 (fun a d => coords a d - m.coords0 a d))
    + (1 / 2) * Matrix.dotProduct (flat3 (fun a d => coords a d - m.coords0 a d))
        (m.hess.mulVec (flat3 (fun a d => coords a d - m.coords0 a d)))

/-- Embedding of `HarmonicModel.get_gradient`:
`gradient + (H dx).reshape([Natoms, 3])`. -/
def HarmonicModel.get_gradient {N : ℕ} (m : HarmonicModel N) (coords : Coords N) :
    Coords N :=
  fun a d =>
    m.gradient a d
      + unflat3 (m.hess.mulVec (flat3 (fun a' d' => coords a' d' - m.coords0 a' d'))) a d

/-- Embedding of `HarmonicModel.get_hessian`: returns the stored Hessian,
ignoring the queried coordinates. -/
def HarmonicModel.get_hessian {N : ℕ} (m : HarmonicModel N) (_coords : Coords N) :
    Matrix (Fin (3 * N)) (Fin (3 * N)) ℚ :=
  m.hess

/-- The loop of `diagonalize_hess` (and of `get_constrained_ihess`)
building the inverse-eigenvalue array: start from `np.zeros`, and for
each index `i` set entry `i` to `1.0/eigval` when `abs(eigval) > ridge`. -/
def buildIevals {n : ℕ} (evals : Fin n → ℚ) (ridge : ℚ) : Fin n → ℚ :=
  (List.finRange n).foldl
    (fun ievals i => if ridge < |evals i| then Function.update ievals i (evals i)⁻¹ else ievals)
    (fun _ => 0)

/-- Eigenvalues cached by `diagonalize_hess` at construction
(`self.evals`). -/
def HarmonicModel.evals {N : ℕ} (m : HarmonicModel N) : Fin (3 * N) → ℚ :=
  (m.eigh m.hess).1

/-- Eigenvector matrix cached by `diagonalize_hess` at construction
(`self.evecs`). -/
def HarmonicModel.evecs {N : ℕ} (m : HarmonicModel N) :
    Matrix (Fin (3 * N)) (Fin (3 * N)) ℚ :=
  (m.eigh m.hess).2

/-- Inverse-eigenvalue array cached by `diagonalize_hess`
(`self.ievals`). -/
def HarmonicModel.ievals {N : ℕ} (m : HarmonicModel N) : Fin (3 * N) → ℚ :=
  buildIevals m.evals m.ridge

/-- Pseudo-inverse Hessian cached by `diagonalize_hess`
(`self.ihess = evecs · diag(ievals) · evecsᵀ`, flattened view). -/
def HarmonicModel.ihess {N : ℕ} (m : HarmonicModel N) :
    Matrix (Fin (3 * N)) (Fin (3 * N)) ℚ :=
  m.evecs * Matrix.diagonal m.ievals * Matrix.transpose m.evecs

/-- One step of the `for i in free_indices: D[i,i] = 0.0` loop of
`get_constrained_hess`. -/
def setDiagZero {n : ℕ} (D : Matrix (Fin n) (Fin n) ℚ) (i : Fin n) :
    Matrix (Fin n) (Fin n) ℚ :=
  fun a b => if a = i ∧ b = i then 0 else D a b

/-- Embedding of `HarmonicModel.get_constrained_hess`:
`D = spring * identity`, zero the diagonal at every free index, return
`hess + D` (flattened view). -/
def HarmonicModel.get_constrained_hess {N : ℕ} (m : HarmonicModel N)
    (free_indices : List (Fin (3 * N))) (spring : ℚ) :
    Matrix (Fin (3 * N)) (Fin (3 * N)) ℚ :=
  m.hess + free_indices.foldl setDiagZero
    (spring • (1 : Matrix (Fin (3 * N)) (Fin (3 * N)) ℚ))

/-- Embedding of `HarmonicModel.get_constrained_ihess`: re-diagonalize
the constrained Hessian with the same `eigh` routine, rebuild the
inverse-eigenvalue array with the same ridge rule, and assemble
`evecs · diag(ievals) · evecsᵀ`. -/
def HarmonicModel.get_constrained_ihess {N : ℕ} (m : HarmonicModel N)
    (free_indices : List (Fin (3 * N))) (spring : ℚ) :
    Matrix (Fin (3 * N)) (Fin (3 * N)) ℚ :=
  (m.eigh (m.get_constrained_hess free_indices spring)).2
    * Matrix.diagonal
        (buildIevals (m.eigh (m.get_constrained_hess free_indices spring)).1 m.ridge)
    * Matrix.transpose (m.eigh (m.get_constrained_hess free_indices spring)).2

/-- Value at index `i` after the inverse-eigenvalue loop has traversed
the index list `l`, starting from accumulator `acc`. -/
theorem buildIevals_foldl_apply {n : ℕ} (evals : Fin n → ℚ) (ridge : ℚ)
    (l : List (Fin n)) (acc : Fin n → ℚ) (i : Fin n) :
    (l.foldl
        (fun ievals k =>
          if ridge < |evals k| then Function.update ievals k (evals k)⁻¹ else ievals)
        acc) i
      = if i ∈ l ∧ ridge < |evals i| then (evals i)⁻¹ else acc i := by
  induction l generalizing acc with
  | nil => simp
  | cons x t ih =>
    simp only [List.foldl_cons, List.mem_cons]
    rw [ih]
    by_cases hix : i = x
    · subst hix
      by_cases hx : ridge < |evals i|
      · simp [hx, Function.update_apply]
      · simp [hx]
    · have hstep :
          (if ridge < |evals x| then Function.update acc x (evals x)⁻¹ else acc) i = acc i := by
        by_cases hx : ridge < |evals x| <;> simp [hx, Function.update_apply, hix]
      rw [hstep]
      simp [hix]

/-- Closed form of the inverse-eigenvalue array: entry `i` is `1/λᵢ`
when `|λᵢ| > ridge` and `0` otherwise. -/
theorem buildIevals_eq {n : ℕ} (evals : Fin n → ℚ) (ridge : ℚ) :
    buildIevals evals ridge = fun i => if ridge < |evals i| then (evals i)⁻¹ else 0 := by
  funext i
  rw [buildIevals, buildIevals_foldl_apply]
  simp [List.mem_finRange]

/-- Entry of the penalty matrix after the diagonal-zeroing loop has
traversed the free-index list `l`. -/
theorem foldl_setDiagZero_apply {n : ℕ} (l : List (Fin n))
    (M : Matrix (Fin n) (Fin n) ℚ) (a b : Fin n) :
    (l.foldl setDiagZero M) a b = if a = b ∧ a ∈ l then 0 else M a b := by
  induction l generalizing M with
  | nil => simp
  | cons x t ih =>
    simp only [List.foldl_cons, List.mem_cons]
    rw [ih]
    by_cases hab : a = b
    · subst hab
      by_cases hax : a = x
      · subst hax
        simp [setDiagZero]
      · simp [setDiagZero, hax]
    · have hnot : ¬(a = x ∧ b = x) := by
        rintro ⟨h1, h2⟩
        exact hab (h1.trans h2.symm)
      simp [setDiagZero, hab, hnot]

/-- Closed form of the penalty matrix built by `get_constrained_hess`:
diagonal, `0` at free indices and `spring` elsewhere. -/
theorem foldl_setDiagZero_spring {n : ℕ} (l : List (Fin n)) (spring : ℚ) :
    l.foldl setDiagZero (spring • (1 : Matrix (Fin n) (Fin n) ℚ))
      = Matrix.diagonal (fun i => if i ∈ l then 0 else spring) := by
  ext a b
  rw [foldl_setDiagZero_apply]
  by_cases hab : a = b
  · subst hab
    by_cases hal : a ∈ l <;>
      simp [hal, Matrix.diagonal_apply, Matrix.one_apply]
  · simp [hab, Matrix.diagonal_apply, Matrix.one_apply]

/-- Double loop of `CoulombModel.get_energy`: for each `i` and `j` over
the charge list, `continue` when `j <= i`, `continue` when `[i,j]` or
`[j,i]` is in `exclude_pairs`, otherwise add `qi*qj / bond.value(coords)`.
The distance values are supplied through `dist i j`, the external
`IC([i,j], bond_length).value(coords)` primitive already applied to the
queried coordinates. -/
def coulombPairSum (natoms : ℕ) (charges : ℕ → ℚ) (exclude_pairs : List (ℕ × ℕ))
    (dist : ℕ → ℕ → ℚ) : ℚ :=
  ∑ i in Finset.range natoms, ∑ j in Finset.range natoms,
    if j ≤ i then 0
    else if (i, j) ∈ exclude_pairs ∨ (j, i) ∈ exclude_pairs then 0
    else charges i * charges j / dist i j

/-- State of `CoulombModel`.  `C` is the type of coordinate snapshots
(opaque to the model: coordinates are only ever passed on to the
external distance primitive `dist`).  `natoms` is the length of the
charge list; `shift` is the cached construction-time raw energy. -/
structure CoulombModel (C : Type) where
  natoms : ℕ
  coords : C
  charges : ℕ → ℚ
  exclude_pairs : List (ℕ × ℕ)
  dist : ℕ → ℕ → C → ℚ
  shift : ℚ

/-- Embedding of `CoulombModel.__init__`: store the arguments and cache
`shift = self.get_energy(self.coords, shift=False)`. -/
def mkCoulombModel {C : Type} (natoms : ℕ) (coords : C) (charges : ℕ → ℚ)
    (exclude_pairs : List (ℕ × ℕ)) (dist : ℕ → ℕ → C → ℚ) : CoulombModel C :=
  ⟨natoms, coords, charges, exclude_pairs, dist,
    coulombPairSum natoms charges exclude_pairs (fun i j => dist i j coords)⟩

/-- Embedding of `CoulombModel.get_energy`: start from `0.0`, subtract
the cached `shift` when requested, then accumulate the pairwise sum at
the queried coordinates. -/
def CoulombModel.get_energy {C : Type} (m : CoulombModel C) (coords : C)
    (shift : Bool) : ℚ :=
  (if shift then 0 - m.shift else 0)
    + coulombPairSum m.natoms m.charges m.exclude_pairs (fun i j => m.dist i j coords)

/-- The sample record consumed by `electrostatics`: charges (`sample['ac']`),
atom type labels (`sample['ffatypes']`, labels modelled as naturals) and
a coordinate snapshot (`sample['coordinates']`, opaque type `C`). -/
structure Sample (C : Type) where
  natoms : ℕ
  ac : ℕ → ℚ
  ffatypes : ℕ → ℕ
  coordinates : C

/-- The external distance primitive of §6 of the spec
(`IC([i,j], bond_length)`): scalar value, gradient of length `n = 3N`
and Hessian of shape `n × n`, all with respect to the full coordinate
set. -/
structure DistPrim (C : Type) (n : ℕ) where
  value : ℕ → ℕ → C → ℚ
  grad : ℕ → ℕ → C → (Fin n → ℚ)
  hess : ℕ → ℕ → C → Matrix (Fin n) (Fin n) ℚ

/-- The pair `(forces, hess)` contribution accumulated by the body of
the `electrostatics` loops for the pair `(i, j)`:
`forces += -qi*qj/r**2 * g` and
`hess += qi*qj/r**2 * (2.0/r * outer(g, g) - H_r)`. -/
def elecTerm {C : Type} (s : Sample C) (prim : DistPrim C (3 * s.natoms))
    (i j : ℕ) : (Fin (3 * s.natoms) → ℚ) × Matrix (Fin (3 * s.natoms)) (Fin (3 * s.natoms)) ℚ :=
  ((-(s.ac i * s.ac j) / (prim.value i j s.coordinates) ^ 2) • prim.grad i j s.coordinates,
    (s.ac i * s.ac j / (prim.value i j s.coordinates) ^ 2) •
      ((2 / prim.value i j s.coordinates) •
          Matrix.vecMulVec (prim.grad i j s.coordinates) (prim.grad i j s.coordinates)
        - prim.hess i j s.coordinates))

/-- Embedding of the standalone `electrostatics` function: start from
zero force and Hessian accumulators of size `3N` and `3N × 3N`, loop
`i` over `xrange(len(qs))` and `j` over `xrange(i)`, `continue` on an
excluded type of either atom or on an excluded pair in either order,
and otherwise accumulate `elecTerm`. -/
def electrostatics {C : Type} (s : Sample C) (prim : DistPrim C (3 * s.natoms))
    (exclude_pairs : List (ℕ × ℕ)) (exclude_types : List ℕ) :
    (Fin (3 * s.natoms) → ℚ) × Matrix (Fin (3 * s.natoms)) (Fin (3 * s.natoms)) ℚ :=
  (List.range s.natoms).foldl
    (fun acc i =>
      if s.ffatypes i ∈ exclude_types then acc
      else (List.range i).foldl
        (fun acc2 j =>
          if s.ffatypes j ∈ exclude_types then acc2
          else if (i, j) ∈ exclude_pairs ∨ (j, i) ∈ exclude_pairs then acc2
          else acc2 + elecTerm s prim i j)
        acc)
    (0, 0)

/-- A single atom position (one row of a numpy `(N,3)` array). -/
abbrev Vec3 := ℚ × ℚ × ℚ

/-- Componentwise difference of two rows. -/
def subV (a b : Vec3) : Vec3 :=
  (a.1 - b.1, a.2.1 - b.2.1, a.2.2 - b.2.2)

/-- Numpy semantics of `x - y` on two 2-d arrays of row shape `(len,3)`:
equal first dimensions subtract elementwise, a first dimension of 1 on
either side broadcasts over the other, and anything else raises
`ValueError: operands could not be broadcast together`. -/
def npSubRows (x y : List Vec3) : Except String (List Vec3) :=
  if x.length = y.length then Except.ok (List.zipWith subV x y)
  else if x.length = 1 then Except.ok (y.map (fun r => subV x.headI r))
  else if y.length = 1 then Except.ok (x.map (fun r => subV r y.headI))
  else Except.error "operands could not be broadcast together"

/-- Row-major flattening of a list of rows. -/
def flatRows (l : List Vec3) : List ℚ :=
  l.foldr (fun r acc => r.1 :: r.2.1 :: r.2.2 :: acc) []

/-- Dot product of two flat arrays. -/
def dotL (a b : List ℚ) : ℚ :=
  (List.zipWith (· * ·) a b).sum

/-- Matrix·vector product, rows as lists. -/
def matVecL (M : List (List ℚ)) (v : List ℚ) : List ℚ :=
  M.map (fun row => dotL row v)

/-- Data of a `HarmonicModel` at the numpy-array level (lists instead of
shape-indexed types), used to study the shape behaviour of
`get_energy`: `coords0` and `gradient` as `(N,3)` row lists, `hess` as a
`(3N)×(3N)` row list. -/
structure HarmonicModelNp where
  coords0 : List Vec3
  gradient : List Vec3
  hess : List (List ℚ)
  reference : ℚ

/-- Embedding of `HarmonicModel.get_energy` at the numpy-array level,
keeping numpy's shape semantics: `dx = (coords - self.coords0)` follows
broadcasting, and `.reshape([3*Natoms])` demands exactly `3*Natoms`
elements (`Natoms = len(self.coords0)`); on success the quadratic
expansion is evaluated, otherwise the numpy `ValueError` propagates. -/
def HarmonicModelNp.get_energy (m : HarmonicModelNp) (coords : List Vec3) :
    Except String ℚ :=
  match npSubRows coords m.coords0 with
  | Except.error e => Except.error e
  | Except.ok dxRows =>
    if (flatRows dxRows).length = 3 * m.coords0.length then
      Except.ok (m.reference + dotL (flatRows m.gradient) (flatRows dxRows)
        + (1 / 2) * dotL (flatRows dxRows) (matVecL m.hess (flatRows dxRows)))
    else Except.error "cannot reshape array"

section FoldSum

variable {α : Type} {M : Type} [AddCommMonoid M]

/-- An accumulate-or-skip loop is the starting accumulator plus the sum
of the non-skipped contributions. -/
theorem foldl_skip_add (l : List α) (p : α → Prop) [DecidablePred p]
    (f : α → M) (a : M) :
    l.foldl (fun acc x => if p x then acc else acc + f x) a
      = a + (l.map (fun x => if p x then 0 else f x)).sum := by
  induction l generalizing a with
  | nil => simp
  | cons x t ih =>
    simp only [List.foldl_cons, List.map_cons, List.sum_cons]
    rw [ih]
    by_cases hx : p x
    · simp [hx]
    · simp [hx, add_assoc]

/-- Sum of a function mapped over `List.range` as a `Finset.range` sum. -/
theorem list_range_map_sum (n : ℕ) (f : ℕ → M) :
    ((List.range n).map f).sum = ∑ i in Finset.range n, f i := by
  induction n with
  | zero => simp
  | succ k ih =>
    rw [List.range_succ, Finset.sum_range_succ, List.map_append, List.sum_append]
    simp [ih]

end FoldSum

/-- Closed form of the `electrostatics` accumulation loops: the returned
pair is the sum, over every ordered pair `(i, j)` with `j < i`, of the
pair contribution, where a pair contributes zero exactly when either
atom's type is excluded or the index pair is excluded in either order. -/
theorem electrostatics_eq_sum {C : Type} (s : Sample C)
    (prim : DistPrim C (3 * s.natoms)) (ep : List (ℕ × ℕ)) (et : List ℕ) :
    electrostatics s prim ep et
      = ∑ i in Finset.range s.natoms, ∑ j in Finset.range i,
          (if s.ffatypes i ∈ et ∨ s.ffatypes j ∈ et ∨ (i, j) ∈ ep ∨ (j, i) ∈ ep
            then 0 else elecTerm s prim i j) := by
  have hinner : ∀ (i : ℕ)
      (acc : (Fin (3 * s.natoms) → ℚ) × Matrix (Fin (3 * s.natoms)) (Fin (3 * s.natoms)) ℚ),
      (List.range i).foldl
        (fun acc2 j =>
          if s.ffatypes j ∈ et then acc2
          else if (i, j) ∈ ep ∨ (j, i) ∈ ep then acc2
          else acc2 + elecTerm s prim i j) acc
      = acc + ∑ j in Finset.range i,
          (if s.ffatypes j ∈ et ∨ (i, j) ∈ ep ∨ (j, i) ∈ ep then 0
            else elecTerm s prim i j) := by
    intro i acc
    have hbody :
        (fun (acc2 : (Fin (3 * s.natoms) → ℚ) ×
            Matrix (Fin (3 * s.natoms)) (Fin (3 * s.natoms)) ℚ) (j : ℕ) =>
          if s.ffatypes j ∈ et then acc2
          else if (i, j) ∈ ep ∨ (j, i) ∈ ep then acc2
          else acc2 + elecTerm s prim i j)
        = fun acc2 j =>
            if s.ffatypes j ∈ et ∨ (i, j) ∈ ep ∨ (j, i) ∈ ep then acc2
            else acc2 + elecTerm s prim i j := by
      funext acc2 j
      by_cases h1 : s.ffatypes j ∈ et
      · simp [h1]
      · by_cases h2 : (i, j) ∈ ep ∨ (j, i) ∈ ep <;> simp [h1, h2]
    rw [hbody, foldl_skip_add, list_range_map_sum]
  simp only [electrostatics]
  rw [List.foldl_ext
      (fun acc i =>
        if s.ffatypes i ∈ et then acc
        else
          (List.range i).foldl
            (fun acc2 j =>
              if s.ffatypes j ∈ et then acc2
              else if (i, j) ∈ ep ∨ (j, i) ∈ ep then acc2
              else acc2 + elecTerm s prim i j) acc)
      (fun acc i =>
        if s.ffatypes i ∈ et then acc
        else acc + ∑ j in Finset.range i,
          (if s.ffatypes j ∈ et ∨ (i, j) ∈ ep ∨ (j, i) ∈ ep then 0
            else elecTerm s prim i j))
      (0, 0)
      (by
        intro acc i _
        by_cases hp : s.ffatypes i ∈ et
        · simp [hp]
        · simp only [if_neg hp]
          rw [hinner])]
  rw [foldl_skip_add, list_range_map_sum]
  rw [Prod.mk_zero_zero, zero_add]
  apply Finset.sum_congr rfl
  intro i _
  by_cases hp : s.ffatypes i ∈ et
  · simp [hp]
  · simp only [if_neg hp]
    apply Finset.sum_congr rfl
    intro j _
    by_cases h1 : s.ffatypes j ∈ et
    · simp [h1, hp]
    · by_cases h2 : (i, j) ∈ ep ∨ (j, i) ∈ ep
      · simp [h1, h2, hp]
      · simp [h1, h2, hp]

/-- The pairwise Coulomb sum depends on the exclusion list only through
the symmetric membership test `[i,j] in ep or [j,i] in ep`. -/
theorem coulombPairSum_congr_ep (natoms : ℕ) (charges : ℕ → ℚ)
    (ep1 ep2 : List (ℕ × ℕ)) (dist : ℕ → ℕ → ℚ)
    (h : ∀ a b, a < natoms → b < natoms →
      (((a, b) ∈ ep1 ∨ (b, a) ∈ ep1) ↔ ((a, b) ∈ ep2 ∨ (b, a) ∈ ep2))) :
    coulombPairSum natoms charges ep1 dist = coulombPairSum natoms charges ep2 dist := by
  unfold coulombPairSum
  apply Finset.sum_congr rfl
  intro i hi
  apply Finset.sum_congr rfl
  intro j hj
  by_cases hij : j ≤ i
  · simp [hij]
  · simp only [if_neg hij]
    have hiff := h i j (Finset.mem_range.mp hi) (Finset.mem_range.mp hj)
    by_cases h1 : (i, j) ∈ ep1 ∨ (j, i) ∈ ep1
    · rw [if_pos h1, if_pos (hiff.mp h1)]
    · rw [if_neg h1, if_neg (fun h2 => h1 (hiff.mpr h2))]

/-- The `electrostatics` assembler depends on the exclusion list only
through the symmetric membership test. -/
theorem electrostatics_congr_ep {C : Type} (s : Sample C)
    (prim : DistPrim C (3 * s.natoms)) (ep1 ep2 : List (ℕ × ℕ)) (et : List ℕ)
    (h : ∀ a b, a < s.natoms → b < s.natoms →
      (((a, b) ∈ ep1 ∨ (b, a) ∈ ep1) ↔ ((a, b) ∈ ep2 ∨ (b, a) ∈ ep2))) :
    electrostatics s prim ep1 et = electrostatics s prim ep2 et := by
  rw [electrostatics_eq_sum, electrostatics_eq_sum]
  apply Finset.sum_congr rfl
  intro i hi
  apply Finset.sum_congr rfl
  intro j hj
  have hjn : j < s.natoms :=
    lt_trans (Finset.mem_range.mp hj) (Finset.mem_range.mp hi)
  have hiff := h i j (Finset.mem_range.mp hi) hjn
  by_cases ht1 : s.ffatypes i ∈ et
  · simp [ht1]
  · by_cases ht2 : s.ffatypes j ∈ et
    · simp [ht2]
    · simp only [ht1, ht2, false_or]
      by_cases h1 : (i, j) ∈ ep1 ∨ (j, i) ∈ ep1
      · rw [if_pos h1, if_pos (hiff.mp h1)]
      · rw [if_neg h1, if_neg (fun h2 => h1 (hiff.mpr h2))]

/-- Replacing one entry `(i, j)` of an exclusion list by `(j, i)` leaves
the symmetric membership test unchanged. -/
theorem pair_mem_swap (l1 l2 : List (ℕ × ℕ)) (i j a b : ℕ) :
    ((a, b) ∈ l1 ++ (i, j) :: l2 ∨ (b, a) ∈ l1 ++ (i, j) :: l2)
      ↔ ((a, b) ∈ l1 ++ (j, i) :: l2 ∨ (b, a) ∈ l1 ++ (j, i) :: l2) := by
  simp only [List.mem_append, List.mem_cons, Prod.mk.injEq]
  tauto

/-- An exclusion entry with an out-of-range component never matches an
in-range pair. -/
theorem pair_mem_oor (ep : List (ℕ × ℕ)) (natoms x y a b : ℕ)
    (hxy : natoms ≤ x ∨ natoms ≤ y) (ha : a < natoms) (hb : b < natoms) :
    ((a, b) ∈ (x, y) :: ep ∨ (b, a) ∈ (x, y) :: ep)
      ↔ ((a, b) ∈ ep ∨ (b, a) ∈ ep) := by
  simp only [List.mem_cons, Prod.mk.injEq]
  constructor
  · rintro (h | h)
    · rcases h with ⟨h1, h2⟩ | h
      · omega
      · exact Or.inl h
    · rcases h with ⟨h1, h2⟩ | h
      · omega
      · exact Or.inr h
  · rintro (h | h)
    · exact Or.inl (Or.inr h)
    · exact Or.inr (Or.inr h)

/-- Claim C1: for every HarmonicModel, the pseudo-inverse Hessian cached
at construction equals `V·diag(w)·Vᵗ`, where `(λᵢ, vᵢ)` is the symmetric
eigen-decomposition of the flattened `(3N)×(3N)` reference Hessian and
`wᵢ = 1/λᵢ` when `|λᵢ| > ridge` while `wᵢ = 0` when `|λᵢ| ≤ ridge`;
eigenvalues at or below the ridge in absolute value contribute exactly
zero.  Construction is a total function of the model data, so it never
raises for a singular Hessian (a zero eigenvalue simply falls into the
`wᵢ = 0` branch). -/
theorem claim_C1 {N : ℕ} (m : HarmonicModel N) :
    m.ievals = (fun i => if m.ridge < |m.evals i| then (m.evals i)⁻¹ else 0)
      ∧ m.ihess
        = m.evecs
          * Matrix.diagonal (fun i => if m.ridge < |m.evals i| then (m.evals i)⁻¹ else 0)
          * Matrix.transpose m.evecs := by
  constructor
  · exact buildIevals_eq m.evals m.ridge
  · rw [← buildIevals_eq m.evals m.ridge]
    rfl

/-- Claim C3: for every HarmonicModel and every coordinate array of the
reference shape, `get_energy` is the quadratic expansion
`E₀ + g·Δx + ½ Δxᵗ H Δx` and `get_gradient` is `g + H·Δx` reshaped to
`N×3`, with `Δx = coords − coords0` flattened to length `3N`; in
particular `get_energy(coords0) = E₀` and `get_gradient(coords0) = g`. -/
theorem claim_C3 {N : ℕ} (m : HarmonicModel N) (coords : Coords N) :
    m.get_energy coords
        = m.reference
          + Matrix.dotProduct (flat3 m.gradient)
              (flat3 (fun a d => coords a d - m.coords0 a d))
          + (1 / 2) * Matrix.dotProduct (flat3 (fun a d => coords a d - m.coords0 a d))
              (m.hess.mulVec (flat3 (fun a d => coords a d - m.coords0 a d)))
      ∧ m.get_gradient coords
        = (fun a d => m.gradient a d
            + unflat3 (m.hess.mulVec
                (flat3 (fun a' d' => coords a' d' - m.coords0 a' d'))) a d)
      ∧ m.get_energy m.coords0 = m.reference
      ∧ m.get_gradient m.coords0 = m.gradient := by
  have hdx : flat3 (fun a d => m.coords0 a d - m.coords0 a d)
      = (0 : Fin (3 * N) → ℚ) := by
    funext k
    simp [flat3]
  refine ⟨rfl, rfl, ?_, ?_⟩
  · unfold HarmonicModel.get_energy
    rw [hdx]
    simp
  · funext a d
    unfold HarmonicModel.get_gradient
    rw [hdx]
    simp [unflat3]

/-- Claim C8: for every HarmonicModel, `get_hessian` returns the stored
reference Hessian unchanged, for every queried coordinate array, so the
result does not depend on the `coords` argument. -/
theorem claim_C8 {N : ℕ} (m : HarmonicModel N) (coords coords' : Coords N) :
    m.get_hessian coords = m.hess ∧ m.get_hessian coords = m.get_hessian coords' :=
  ⟨rfl, rfl⟩

/-- Claim C5: for every HarmonicModel, free index list and spring value,
`get_constrained_hess(free_indices, spring)` minus the stored reference
Hessian is the diagonal matrix with entry `0` at every free index and
exactly `spring` at every fixed index. -/
theorem claim_C5 {N : ℕ} (m : HarmonicModel N)
    (free_indices : List (Fin (3 * N))) (spring : ℚ) :
    m.get_constrained_hess free_indices spring - m.hess
      = Matrix.diagonal (fun i => if i ∈ free_indices then 0 else spring) := by
  unfold HarmonicModel.get_constrained_hess
  rw [foldl_setDiagZero_spring]
  exact add_sub_cancel_left m.hess _

/-- Claim C10: for every HarmonicModel and spring value, calling
`get_constrained_hess` with the full set `{0, …, 3N−1}` of free
degree-of-freedom indices returns exactly the stored reference Hessian,
and `get_constrained_ihess` with the same full free set returns the same
pseudo-inverse as the one cached by `diagonalize_hess` at
construction. -/
theorem claim_C10 {N : ℕ} (m : HarmonicModel N) (spring : ℚ) :
    m.get_constrained_hess (List.finRange (3 * N)) spring = m.hess
      ∧ m.get_constrained_ihess (List.finRange (3 * N)) spring = m.ihess := by
  have h1 : m.get_constrained_hess (List.finRange (3 * N)) spring = m.hess := by
    unfold HarmonicModel.get_constrained_hess
    rw [foldl_setDiagZero_spring]
    have h0 : Matrix.diagonal
        (fun i : Fin (3 * N) => if i ∈ List.finRange (3 * N) then 0 else spring)
        = (0 : Matrix (Fin (3 * N)) (Fin (3 * N)) ℚ) := by
      ext a b
      simp [Matrix.diagonal_apply, List.mem_finRange]
    rw [h0, add_zero]
  refine ⟨h1, ?_⟩
  unfold HarmonicModel.get_constrained_ihess
  rw [h1]
  rfl

/-- Claim C2: `electrostatics` iterates over every ordered pair `(i, j)`
with `j < i`, skips a pair when either atom's type label is excluded or
the index pair is excluded in either order, and accumulates
`forces += −(qᵢqⱼ/r²)·g` and `hess += (qᵢqⱼ/r²)·((2/r)·g⊗g − H_r)` for
each remaining pair, where `r`, `g`, `H_r` are the distance primitive's
value, gradient and Hessian; the returned pair has sizes `3N` and
`3N×3N` by its type. -/
theorem claim_C2 {C : Type} (s : Sample C) (prim : DistPrim C (3 * s.natoms))
    (ep : List (ℕ × ℕ)) (et : List ℕ) :
    electrostatics s prim ep et
      = (∑ i in Finset.range s.natoms, ∑ j in Finset.range i,
          (if s.ffatypes i ∈ et ∨ s.ffatypes j ∈ et ∨ (i, j) ∈ ep ∨ (j, i) ∈ ep
            then 0
            else (-(s.ac i * s.ac j) / (prim.value i j s.coordinates) ^ 2) •
              prim.grad i j s.coordinates),
        ∑ i in Finset.range s.natoms, ∑ j in Finset.range i,
          (if s.ffatypes i ∈ et ∨ s.ffatypes j ∈ et ∨ (i, j) ∈ ep ∨ (j, i) ∈ ep
            then 0
            else (s.ac i * s.ac j / (prim.value i j s.coordinates) ^ 2) •
              ((2 / prim.value i j s.coordinates) •
                  Matrix.vecMulVec (prim.grad i j s.coordinates)
                    (prim.grad i j s.coordinates)
                - prim.hess i j s.coordinates))) := by
  rw [electrostatics_eq_sum]
  refine Prod.ext ?_ ?_
  · simp only [Prod.fst_sum]
    apply Finset.sum_congr rfl
    intro i _
    apply Finset.sum_congr rfl
    intro j _
    by_cases hc : s.ffatypes i ∈ et ∨ s.ffatypes j ∈ et ∨ (i, j) ∈ ep ∨ (j, i) ∈ ep
    · simp [hc]
    · simp [hc, elecTerm]
  · simp only [Prod.snd_sum]
    apply Finset.sum_congr rfl
    intro i _
    apply Finset.sum_congr rfl
    intro j _
    by_cases hc : s.ffatypes i ∈ et ∨ s.ffatypes j ∈ et ∨ (i, j) ∈ ep ∨ (j, i) ∈ ep
    · simp [hc]
    · simp [hc, elecTerm]

/-- Claim C6: for every CoulombModel, the `shift` stored at construction
equals the raw unshifted pairwise Coulomb energy (exclusions applied)
at the reference coordinates — which is exactly
`get_energy(coords0, shift=False)` — and consequently
`get_energy(coords0, shift=True) = 0`. -/
theorem claim_C6 {C : Type} (natoms : ℕ) (coords : C) (charges : ℕ → ℚ)
    (exclude_pairs : List (ℕ × ℕ)) (dist : ℕ → ℕ → C → ℚ) :
    (mkCoulombModel natoms coords charges exclude_pairs dist).shift
        = coulombPairSum natoms charges exclude_pairs (fun i j => dist i j coords)
      ∧ (mkCoulombModel natoms coords charges exclude_pairs dist).shift
        = (mkCoulombModel natoms coords charges exclude_pairs dist).get_energy coords false
      ∧ (mkCoulombModel natoms coords charges exclude_pairs dist).get_energy coords true
        = 0 := by
  refine ⟨rfl, ?_, ?_⟩
  · simp [CoulombModel.get_energy, mkCoulombModel]
  · simp [CoulombModel.get_energy, mkCoulombModel]

/-- Claim C7: replacing an exclusion entry `(i, j)` by `(j, i)` produces
identical results, both for `CoulombModel.get_energy` (at any queried
coordinates and with either shift flag, the cached shift being rebuilt
from the replaced list) and for `electrostatics`. -/
theorem claim_C7 {C : Type} (natoms : ℕ) (coords0 queried : C) (charges : ℕ → ℚ)
    (l1 l2 : List (ℕ × ℕ)) (i j : ℕ) (dist : ℕ → ℕ → C → ℚ) (sh : Bool)
    (s : Sample C) (prim : DistPrim C (3 * s.natoms)) (et : List ℕ) :
    (mkCoulombModel natoms coords0 charges (l1 ++ (i, j) :: l2) dist).get_energy queried sh
        = (mkCoulombModel natoms coords0 charges (l1 ++ (j, i) :: l2) dist).get_energy
            queried sh
      ∧ electrostatics s prim (l1 ++ (i, j) :: l2) et
        = electrostatics s prim (l1 ++ (j, i) :: l2) et := by
  constructor
  · simp only [CoulombModel.get_energy, mkCoulombModel]
    rw [coulombPairSum_congr_ep natoms charges (l1 ++ (i, j) :: l2) (l1 ++ (j, i) :: l2)
        (fun a b => dist a b coords0) (fun a b _ _ => pair_mem_swap l1 l2 i j a b)]
    rw [coulombPairSum_congr_ep natoms charges (l1 ++ (i, j) :: l2) (l1 ++ (j, i) :: l2)
        (fun a b => dist a b queried) (fun a b _ _ => pair_mem_swap l1 l2 i j a b)]
  · exact electrostatics_congr_ep s prim (l1 ++ (i, j) :: l2) (l1 ++ (j, i) :: l2) et
      (fun a b _ _ => pair_mem_swap l1 l2 i j a b)

/-- Claim C9, amended: when `exclude_pairs` contains a pair referencing
an out-of-range atom index, `CoulombModel.get_energy` and
`electrostatics` raise no error; the invalid entry matches no in-range
pair and the results are identical to those with the entry removed. -/
theorem claim_C9_amended {C : Type} (natoms : ℕ) (coords0 queried : C)
    (charges : ℕ → ℚ) (ep : List (ℕ × ℕ)) (x y : ℕ) (dist : ℕ → ℕ → C → ℚ)
    (sh : Bool) (s : Sample C) (prim : DistPrim C (3 * s.natoms)) (et : List ℕ)
    (hx : natoms ≤ x ∨ natoms ≤ y) (hx2 : s.natoms ≤ x ∨ s.natoms ≤ y) :
    (mkCoulombModel natoms coords0 charges ((x, y) :: ep) dist).get_energy queried sh
        = (mkCoulombModel natoms coords0 charges ep dist).get_energy queried sh
      ∧ electrostatics s prim ((x, y) :: ep) et = electrostatics s prim ep et := by
  constructor
  · simp only [CoulombModel.get_energy, mkCoulombModel]
    rw [coulombPairSum_congr_ep natoms charges ((x, y) :: ep) ep
        (fun a b => dist a b coords0)
        (fun a b ha hb => pair_mem_oor ep natoms x y a b hx ha hb)]
    rw [coulombPairSum_congr_ep natoms charges ((x, y) :: ep) ep
        (fun a b => dist a b queried)
        (fun a b ha hb => pair_mem_oor ep natoms x y a b hx ha hb)]
  · exact electrostatics_congr_ep s prim ((x, y) :: ep) ep et
      (fun a b ha hb => pair_mem_oor ep s.natoms x y a b hx2 ha hb)

/-- Demonstration CoulombModel for claim C9: two atoms, unit charges,
constant distance 2, and an exclusion entry `(5, 6)` whose indices are
out of range for two atoms. -/
def demoCM9 : CoulombModel Unit :=
  mkCoulombModel 2 () (fun _ => 1) ((5, 6) :: []) (fun _ _ _ => 2)

/-- Demonstration CoulombModel for claim C9 with no exclusions. -/
def demoCM9b : CoulombModel Unit :=
  mkCoulombModel 2 () (fun _ => 1) [] (fun _ _ _ => 2)

/-- Claim C9 counterexample: with the out-of-range exclusion entry
`(5, 6)` on a two-atom model, `get_energy` does not fail fast — it
returns the same value `1/2 = q₀q₁/r₀₁` as the model with the invalid
entry removed, silently ignoring it. -/
theorem claim_C9_counterexample :
    demoCM9.get_energy () false = demoCM9b.get_energy () false
      ∧ demoCM9.get_energy () false = 1 / 2
      ∧ demoCM9.exclude_pairs = (5, 6) :: [] := by
  refine ⟨?_, ?_, rfl⟩ <;>
    norm_num [demoCM9, demoCM9b, mkCoulombModel, CoulombModel.get_energy,
      coulombPairSum, Finset.sum_range_succ]

/-- Demonstration sample for the electrostatics half of claim C9. -/
def demoSample9 : Sample Unit := ⟨2, fun _ => 1, fun _ => 0, ()⟩

/-- Demonstration distance primitive for the electrostatics half of
claim C9: constant value 1, zero gradient and Hessian. -/
def demoPrim9 : DistPrim Unit (3 * demoSample9.natoms) :=
  ⟨fun _ _ _ => 1, fun _ _ _ => 0, fun _ _ _ => 0⟩

/-- Witness for the amended claim C9, at a two-atom model with the
out-of-range exclusion entry `(5, 6)`. -/
theorem claim_C9_amended_witness :
    ((2 ≤ 5 ∨ 2 ≤ 6) ∧ (demoSample9.natoms ≤ 5 ∨ demoSample9.natoms ≤ 6))
      ∧ ((mkCoulombModel 2 () (fun _ => (1 : ℚ)) ((5, 6) :: [])
            (fun _ _ _ => 2)).get_energy () false
          = (mkCoulombModel 2 () (fun _ => (1 : ℚ)) []
              (fun _ _ _ => 2)).get_energy () false
        ∧ electrostatics demoSample9 demoPrim9 ((5, 6) :: []) []
          = electrostatics demoSample9 demoPrim9 [] []) :=
  ⟨⟨by decide, by decide⟩,
    claim_C9_amended 2 () () (fun _ => 1) [] 5 6 (fun _ _ _ => 2) false
      demoSample9 demoPrim9 [] (by decide) (by decide)⟩

/-- Demonstration HarmonicModel data at the numpy-array level for claim
C4: two reference atoms, zero Hessian, gradient `[1..6]`, reference
energy 0. -/
def demoHMnp : HarmonicModelNp :=
  ⟨[((0 : ℚ), (0 : ℚ), (0 : ℚ)), ((1 : ℚ), (0 : ℚ), (0 : ℚ))],
    [((1 : ℚ), (2 : ℚ), (3 : ℚ)), ((4 : ℚ), (5 : ℚ), (6 : ℚ))],
    List.replicate 6 (List.replicate 6 (0 : ℚ)), 0⟩

/-- Claim C4 evaluated at the failing input: querying the two-atom model
with a one-atom coordinate array does not produce a shape error — numpy
broadcasting accepts the subtraction, the reshape succeeds and an energy
is returned — although the atom counts differ.  A query whose atom count
differs and is not 1 does surface the numpy broadcast error. -/
theorem claim_C4_eval :
    demoHMnp.get_energy [((0 : ℚ), (0 : ℚ), (0 : ℚ))] = Except.ok (-4)
      ∧ [((0 : ℚ), (0 : ℚ), (0 : ℚ))].length ≠ demoHMnp.coords0.length
      ∧ demoHMnp.get_energy (List.replicate 3 ((0 : ℚ), (0 : ℚ), (0 : ℚ)))
        = Except.error "operands could not be broadcast together" := by
  refine ⟨?_, by decide, ?_⟩ <;>
    norm_num [HarmonicModelNp.get_energy, demoHMnp, npSubRows, subV, flatRows,
      dotL, matVecL, List.replicate, List.zipWith]

end QuickFF
